import Mathlib

/-!
Verification of `beman::inplace_vector` (header
`src/include/beman/inplace_vector/inplace_vector.hpp`).

The container is embedded shallowly: a state is the compile-time capacity
`cap` (the template parameter `N`) together with the list of live element
values (`data`, the elements at logical indices `[0, size)`).  Elements are
modelled as `Int` (the tests instantiate with `int`).  Operations that may
throw `std::bad_alloc` or `std::out_of_range` return an `Except` result
paired with the container state after the operation, so that the state left
behind by a failing operation is observable (a C++ exception propagates but
the container object survives with whatever elements were committed).
-/

namespace BemanIV

/-- Error kinds raised by the container: `std::bad_alloc` for capacity
violations and `std::out_of_range` for `at`. -/
inductive Err where
  | badAlloc
  | outOfRange
deriving DecidableEq, Repr

/-- `inplace_vector<int, cap>`: capacity `cap = N` and the live elements
`data` (the count field is `data.length`). -/
structure IV where
  cap : Nat
  data : List Int
deriving DecidableEq, Repr

/-- `size()`: the current element count. -/
def size (iv : IV) : Nat := iv.data.length

/-- `capacity()` (and `max_size()`): the template parameter `N`. -/
def capacity (iv : IV) : Nat := iv.cap

/-- `unchecked_emplace_back`: `construct_at(end(), v)` then
`__unsafe_set_size(size() + 1)`.  Precondition (debug assertion):
`size() < capacity()`. -/
def unchecked_emplace_back (iv : IV) (v : Int) : IV :=
  ⟨iv.cap, iv.data ++ [v]⟩

/-- `try_emplace_back`: returns `nullptr` (here `none`) if
`size() == capacity()`, otherwise forwards to `unchecked_emplace_back` and
returns the address of the new `back()` element, modelled as its index. -/
def try_emplace_back (iv : IV) (v : Int) : Option Nat × IV :=
  if iv.data.length = iv.cap then (none, iv)
  else
    let iv2 := unchecked_emplace_back iv v
    (some (iv2.data.length - 1), iv2)

/-- `emplace_back`: forwards to `try_emplace_back` and throws `bad_alloc`
on a null result. -/
def emplace_back (iv : IV) (v : Int) : Except Err Unit × IV :=
  match try_emplace_back iv v with
  | (none, iv2) => (Except.error Err.badAlloc, iv2)
  | (some _, iv2) => (Except.ok (), iv2)

/-- `try_push_back` (both overloads): forwards to `try_emplace_back`. -/
def try_push_back (iv : IV) (v : Int) : Option Nat × IV :=
  try_emplace_back iv v

/-- `push_back` (both overloads): `emplace_back` then returns `back()`,
modelled as the index of the last element. -/
def push_back (iv : IV) (v : Int) : Except Err Nat × IV :=
  match emplace_back iv v with
  | (Except.error e, iv2) => (Except.error e, iv2)
  | (Except.ok _, iv2) => (Except.ok (iv2.data.length - 1), iv2)

/-- The element-appending loop `for (...) emplace_back(...)` shared by the
`insert` overloads, the copy/move constructors and `resize`: appends the
values in order, stopping with the propagated exception (and the state
committed so far) as soon as an `emplace_back` fails. -/
def emplace_loop : IV → List Int → Except Err Unit × IV
  | iv, [] => (Except.ok (), iv)
  | iv, v :: rest =>
    match emplace_back iv v with
    | (Except.error e, iv2) => (Except.error e, iv2)
    | (Except.ok _, iv2) => emplace_loop iv2 rest

/-- The loop body of `append_range`: before each element it additionally
checks `size() == capacity()` and throws `bad_alloc`. -/
def append_range_loop : IV → List Int → Except Err Unit × IV
  | iv, [] => (Except.ok (), iv)
  | iv, v :: rest =>
    if iv.data.length = iv.cap then (Except.error Err.badAlloc, iv)
    else
      match emplace_back iv v with
      | (Except.error e, iv2) => (Except.error e, iv2)
      | (Except.ok _, iv2) => append_range_loop iv2 rest

/-- `append_range` for a `sized_range` source: the `if constexpr
(ranges::sized_range<R>)` branch first checks
`size() + ranges::size(rg) > capacity()` and throws before touching any
element, then runs the per-element loop. -/
def append_range_sized (iv : IV) (rg : List Int) : Except Err Unit × IV :=
  if iv.cap < iv.data.length + rg.length then (Except.error Err.badAlloc, iv)
  else append_range_loop iv rg

/-- `std::rotate(begin() + pos, begin() + mid, end())` on the stored list:
the segment `[pos, length)` is cyclically permuted so the element at `mid`
comes first. -/
def rotate_tail (l : List Int) (pos mid : Nat) : List Int :=
  l.take pos ++ ((l.drop pos).drop (mid - pos) ++ (l.drop pos).take (mid - pos))

/-- `insert(position, first, last)` for a random-access source (also the
effect of `insert_range` and the `initializer_list` overload, whose
iterators are pointers): checks `size() + distance(first, last) >
capacity()` up front (the `if constexpr (random_access_iterator)` branch),
then appends all elements at the end and rotates them into position,
returning the iterator to the first inserted element as an index. -/
def insert_range_ra (iv : IV) (pos : Nat) (src : List Int) : Except Err Nat × IV :=
  if iv.cap < iv.data.length + src.length then (Except.error Err.badAlloc, iv)
  else
    let b := iv.data.length
    match emplace_loop iv src with
    | (Except.error e, iv2) => (Except.error e, iv2)
    | (Except.ok _, iv2) => (Except.ok pos, ⟨iv2.cap, rotate_tail iv2.data pos b⟩)

/-- `insert(position, first, last)` for a non-random-access input iterator:
same as `insert_range_ra` but without the up-front capacity check, so a
mid-loop failure propagates with the already-appended tail committed. -/
def insert_input (iv : IV) (pos : Nat) (src : List Int) : Except Err Nat × IV :=
  let b := iv.data.length
  match emplace_loop iv src with
  | (Except.error e, iv2) => (Except.error e, iv2)
  | (Except.ok _, iv2) => (Except.ok pos, ⟨iv2.cap, rotate_tail iv2.data pos b⟩)

/-- `insert(position, n, x)`: `for (i = 0; i < n; ++i) emplace_back(x)` —
note: no up-front capacity check — then rotate into position. -/
def insert_n (iv : IV) (pos n : Nat) (x : Int) : Except Err Nat × IV :=
  let b := iv.data.length
  match emplace_loop iv (List.replicate n x) with
  | (Except.error e, iv2) => (Except.error e, iv2)
  | (Except.ok _, iv2) => (Except.ok pos, ⟨iv2.cap, rotate_tail iv2.data pos b⟩)

/-- `emplace(position, args...)` (also `insert(position, T&&)`): `b = end()`,
`emplace_back(args...)`, then `rotate(pos, b, end())`. -/
def emplace_at (iv : IV) (pos : Nat) (v : Int) : Except Err Nat × IV :=
  insert_input iv pos [v]

/-- `erase(first, last)` with iterator positions as indices `i ≤ j`:
if the range is non-empty, `std::move(f + (j - i), end(), f)` shifts the
tail down and the trailing slots are destroyed, leaving
`take i ++ drop j`; the returned iterator is `f = i`.
Preconditions (debug assertions): `i ≤ j ≤ size()`. -/
def erase (iv : IV) (i j : Nat) : Nat × IV :=
  if i = j then (i, iv)
  else (i, ⟨iv.cap, iv.data.take i ++ iv.data.drop j⟩)

/-- `erase(position)`: `erase(position, position + 1)`. -/
def erase_one (iv : IV) (i : Nat) : Nat × IV :=
  erase iv i (i + 1)

/-- `clear()`: destroys all live elements and sets the count to 0. -/
def clear (iv : IV) : IV := ⟨iv.cap, []⟩

/-- `pop_back()`: destroys the last element and decrements the count.
Precondition (debug assertion): `size() > 0`. -/
def pop_back (iv : IV) : IV := ⟨iv.cap, iv.data.dropLast⟩

/-- `resize(sz, c)`: no-op when `sz == size()`; throws `bad_alloc` when
`sz > N`; `insert(end(), sz - size(), c)` when growing; destroys the tail
and sets the count when shrinking. -/
def resize_val (iv : IV) (sz : Nat) (c : Int) : Except Err Unit × IV :=
  if sz = iv.data.length then (Except.ok (), iv)
  else if iv.cap < sz then (Except.error Err.badAlloc, iv)
  else if iv.data.length < sz then
    match insert_n iv iv.data.length (sz - iv.data.length) c with
    | (Except.error e, iv2) => (Except.error e, iv2)
    | (Except.ok _, iv2) => (Except.ok (), iv2)
  else (Except.ok (), ⟨iv.cap, iv.data.take sz⟩)

/-- `resize(sz)`: like `resize(sz, c)` but the growth loop is
`while (size() != sz) emplace_back(T{})`; `T{}` for `int` value-initializes
to `0`. -/
def resize_def (iv : IV) (sz : Nat) : Except Err Unit × IV :=
  if sz = iv.data.length then (Except.ok (), iv)
  else if iv.cap < sz then (Except.error Err.badAlloc, iv)
  else if iv.data.length < sz then
    emplace_loop iv (List.replicate (sz - iv.data.length) 0)
  else (Except.ok (), ⟨iv.cap, iv.data.take sz⟩)

/-- `at(pos)`: unconditional bounds check, throwing `out_of_range`. -/
def at_idx (iv : IV) (pos : Nat) : Except Err Int :=
  if iv.data.length ≤ pos then Except.error Err.outOfRange
  else Except.ok (iv.data.getD pos 0)

/-- The copy constructor: `for (e : x) emplace_back(e)` into a
default-constructed container of the same capacity. -/
def copy_construct (x : IV) : Except Err Unit × IV :=
  emplace_loop ⟨x.cap, []⟩ x.data

/-- The move constructor: `for (e : x) emplace_back(std::move(e))`.  The new
container receives each element's value; each source element is left in a
moved-from state, modelled by an arbitrary function `mv` applied to its
value.  The loop never writes the source's count field, so the source
keeps its length.  Result: (result-and-new-container, source after). -/
def move_construct (mv : Int → Int) (x : IV) : (Except Err Unit × IV) × IV :=
  (emplace_loop ⟨x.cap, []⟩ x.data, ⟨x.cap, x.data.map mv⟩)

/-- Copy assignment: `clear()` then `for (e : x) emplace_back(e)`. -/
def copy_assign (dst x : IV) : Except Err Unit × IV :=
  emplace_loop (clear dst) x.data

/-- `assign(first, last)`: `clear()` then `insert(begin(), first, last)`. -/
def assign_list (iv : IV) (l : List Int) : Except Err Nat × IV :=
  insert_input (clear iv) 0 l

/-- `swap(x)`: three element-wise moves through a temporary
(`tmp = move(x); x = move(*this); *this = move(tmp)`); each move-assignment
clears its destination and re-fills it element-wise.  Result:
(`*this` after, `x` after). -/
def swap_op (mv : Int → Int) (a b : IV) : IV × IV :=
  let tmp := (move_construct mv b).1.2
  let b2 := (emplace_loop (clear b) a.data).2
  let a2 := (emplace_loop (clear a) tmp.data).2
  (a2, b2)

/-- `inplace_vector(n)`: `for (i = 0; i < n; ++i) emplace_back(T{})`. -/
def ctor_n (N n : Nat) : Except Err Unit × IV :=
  emplace_loop ⟨N, []⟩ (List.replicate n 0)

/-- `inplace_vector(n, value)`: `insert(begin(), n, value)` on a
default-constructed container. -/
def ctor_n_val (N n : Nat) (v : Int) : Except Err Nat × IV :=
  insert_n ⟨N, []⟩ 0 n v

/-- `inplace_vector(initializer_list)` / `inplace_vector(from_range, rg)` on
a random-access source: `insert(begin(), ...)` on a default-constructed
container. -/
def ctor_list (N : Nat) (l : List Int) : Except Err Nat × IV :=
  insert_range_ra ⟨N, []⟩ 0 l

/-- `operator==`: equal sizes and `ranges::equal` element-wise. -/
def iv_eq (x y : IV) : Bool :=
  x.data.length = y.data.length && x.data = y.data

/-- `operator<=>` as written in the source: sizes are compared first; for
equal sizes one pass computes `all_equal` (no index has `x[i] < y[i]`) and
`all_less` (no index has `x[i] == y[i]`) and the result is `0` if
`all_equal`, else `-1` if `all_less`, else `1`. -/
def three_way_compare (x y : IV) : Int :=
  if x.data.length < y.data.length then -1
  else if y.data.length < x.data.length then 1
  else
    let ps := x.data.zip y.data
    let all_equal := ps.all (fun p => ! decide (p.1 < p.2))
    let all_less := ps.all (fun p => ! decide (p.1 = p.2))
    if all_equal then 0 else if all_less then -1 else 1

/-- Modelled from the spec: lexicographic pairwise comparison of the element
sequences, returning less (-1) / equal (0) / greater (1).  This is the
comparison the spec attributes to `operator<=>`; it is compared against
`three_way_compare`, the embedding of the source. -/
def specLexCompare : List Int → List Int → Int
  | [], [] => 0
  | [], _ :: _ => -1
  | _ :: _, [] => 1
  | a :: as, b :: bs => if a < b then -1 else if b < a then 1 else specLexCompare as bs

/-- `__smallest_size_t<N>`, in bytes: the source tests
`N < numeric_limits<uintK_t>::max()` with a strict `<` against the max
value of each candidate type (255, 65535, 4294967295), falling through to
the 8-byte types. -/
def smallest_size_bytes (n : Nat) : Nat :=
  if n < 2 ^ 8 - 1 then 1
  else if n < 2 ^ 16 - 1 then 2
  else if n < 2 ^ 32 - 1 then 4
  else 8

/-- Modelled from the spec: the smallest byte width among 1/2/4/8 whose
unsigned type can represent the value `n` (i.e. `n ≤ 2^(8w) - 1`). -/
def specSmallestBytes (n : Nat) : Nat :=
  if n ≤ 2 ^ 8 - 1 then 1
  else if n ≤ 2 ^ 16 - 1 then 2
  else if n ≤ 2 ^ 32 - 1 then 4
  else 8

/-- The container invariant: the count never exceeds the capacity. -/
def Inv (iv : IV) : Prop := iv.data.length ≤ iv.cap

section Lemmas

lemma emplace_back_full (iv : IV) (v : Int) (h : iv.data.length = iv.cap) :
    emplace_back iv v = (Except.error Err.badAlloc, iv) := by
  unfold emplace_back try_emplace_back
  simp [h]

lemma emplace_back_spare (iv : IV) (v : Int) (h : iv.data.length ≠ iv.cap) :
    emplace_back iv v = (Except.ok (), ⟨iv.cap, iv.data ++ [v]⟩) := by
  unfold emplace_back try_emplace_back unchecked_emplace_back
  simp [h]

lemma inv_emplace_back (iv : IV) (v : Int) (h : Inv iv) : Inv (emplace_back iv v).2 := by
  by_cases hc : iv.data.length = iv.cap
  · rw [emplace_back_full iv v hc]
    exact h
  · rw [emplace_back_spare iv v hc]
    simp only [Inv, List.length_append, List.length_cons, List.length_nil] at h ⊢
    omega

lemma emplace_loop_cons_full (iv : IV) (v : Int) (rest : List Int)
    (hc : iv.data.length = iv.cap) :
    emplace_loop iv (v :: rest) = (Except.error Err.badAlloc, iv) := by
  unfold emplace_loop
  rw [emplace_back_full iv v hc]

lemma emplace_loop_cons_spare (iv : IV) (v : Int) (rest : List Int)
    (hc : iv.data.length ≠ iv.cap) :
    emplace_loop iv (v :: rest) = emplace_loop ⟨iv.cap, iv.data ++ [v]⟩ rest := by
  simp only [emplace_loop]
  rw [emplace_back_spare iv v hc]

lemma inv_emplace_loop : ∀ (l : List Int) (iv : IV), Inv iv → Inv (emplace_loop iv l).2
  | [], _, h => h
  | v :: rest, iv, h => by
    by_cases hc : iv.data.length = iv.cap
    · rw [emplace_loop_cons_full iv v rest hc]
      exact h
    · rw [emplace_loop_cons_spare iv v rest hc]
      exact inv_emplace_loop rest ⟨iv.cap, iv.data ++ [v]⟩ (by
        simp only [Inv, List.length_append, List.length_cons, List.length_nil] at h ⊢
        omega)

lemma cap_emplace_loop : ∀ (l : List Int) (iv : IV), (emplace_loop iv l).2.cap = iv.cap
  | [], _ => rfl
  | v :: rest, iv => by
    by_cases hc : iv.data.length = iv.cap
    · rw [emplace_loop_cons_full iv v rest hc]
    · rw [emplace_loop_cons_spare iv v rest hc]
      exact cap_emplace_loop rest _

lemma emplace_loop_ok : ∀ (l : List Int) (iv : IV),
    iv.data.length + l.length ≤ iv.cap →
    emplace_loop iv l = (Except.ok (), ⟨iv.cap, iv.data ++ l⟩)
  | [], iv, _ => by
    unfold emplace_loop
    cases iv
    simp
  | v :: rest, iv, h => by
    have hc : iv.data.length ≠ iv.cap := by
      simp only [List.length_cons] at h
      omega
    rw [emplace_loop_cons_spare iv v rest hc]
    rw [emplace_loop_ok rest ⟨iv.cap, iv.data ++ [v]⟩ (by
      simp only [List.length_append, List.length_cons, List.length_nil] at h ⊢
      omega)]
    simp

lemma append_range_loop_cons_full (iv : IV) (v : Int) (rest : List Int)
    (hc : iv.data.length = iv.cap) :
    append_range_loop iv (v :: rest) = (Except.error Err.badAlloc, iv) := by
  unfold append_range_loop
  rw [if_pos hc]

lemma append_range_loop_cons_spare (iv : IV) (v : Int) (rest : List Int)
    (hc : iv.data.length ≠ iv.cap) :
    append_range_loop iv (v :: rest) = append_range_loop ⟨iv.cap, iv.data ++ [v]⟩ rest := by
  simp only [append_range_loop]
  rw [if_neg hc, emplace_back_spare iv v hc]

lemma inv_append_range_loop : ∀ (l : List Int) (iv : IV), Inv iv →
    Inv (append_range_loop iv l).2
  | [], _, h => h
  | v :: rest, iv, h => by
    by_cases hc : iv.data.length = iv.cap
    · rw [append_range_loop_cons_full iv v rest hc]
      exact h
    · rw [append_range_loop_cons_spare iv v rest hc]
      exact inv_append_range_loop rest ⟨iv.cap, iv.data ++ [v]⟩ (by
        simp only [Inv, List.length_append, List.length_cons, List.length_nil] at h ⊢
        omega)

lemma rotate_tail_length (l : List Int) (pos mid : Nat) :
    (rotate_tail l pos mid).length = l.length := by
  simp only [rotate_tail, List.length_append, List.length_take, List.length_drop]
  omega

lemma rotate_tail_self (l : List Int) (pos : Nat) : rotate_tail l pos pos = l := by
  simp [rotate_tail, List.take_append_drop]

lemma rotate_tail_append (orig ne : List Int) (pos : Nat) (h : pos ≤ orig.length) :
    rotate_tail (orig ++ ne) pos orig.length = orig.take pos ++ ne ++ orig.drop pos := by
  unfold rotate_tail
  rw [List.take_append_of_le_length h, List.drop_append_of_le_length h]
  rw [List.drop_left' (by simp), List.take_left' (by simp)]
  simp [List.append_assoc]

lemma inv_insert_input (iv : IV) (pos : Nat) (src : List Int) (h : Inv iv) :
    Inv (insert_input iv pos src).2 := by
  have hl := inv_emplace_loop src iv h
  have hcap := cap_emplace_loop src iv
  unfold insert_input
  rcases hel : emplace_loop iv src with ⟨res, iv2⟩
  rw [hel] at hl hcap
  cases res with
  | error e => exact hl
  | ok u =>
    simp only [Inv] at hl ⊢
    rw [rotate_tail_length]
    exact hl

lemma inv_insert_range_ra (iv : IV) (pos : Nat) (src : List Int) (h : Inv iv) :
    Inv (insert_range_ra iv pos src).2 := by
  unfold insert_range_ra
  by_cases hc : iv.cap < iv.data.length + src.length
  · simp only [if_pos hc]
    exact h
  · simp only [if_neg hc]
    have hl := inv_emplace_loop src iv h
    rcases hel : emplace_loop iv src with ⟨res, iv2⟩
    rw [hel] at hl
    cases res with
    | error e => exact hl
    | ok u =>
      simp only [Inv] at hl ⊢
      rw [rotate_tail_length]
      exact hl

lemma insert_n_eq_insert_input (iv : IV) (pos n : Nat) (x : Int) :
    insert_n iv pos n x = insert_input iv pos (List.replicate n x) := rfl

lemma inv_insert_n (iv : IV) (pos n : Nat) (x : Int) (h : Inv iv) :
    Inv (insert_n iv pos n x).2 := by
  rw [insert_n_eq_insert_input]
  exact inv_insert_input iv pos (List.replicate n x) h

lemma insert_range_ra_ok (iv : IV) (pos : Nat) (src : List Int)
    (hpos : pos ≤ iv.data.length) (hcap : iv.data.length + src.length ≤ iv.cap) :
    insert_range_ra iv pos src =
      (Except.ok pos, ⟨iv.cap, iv.data.take pos ++ src ++ iv.data.drop pos⟩) := by
  unfold insert_range_ra
  rw [if_neg (by omega)]
  rw [emplace_loop_ok src iv hcap]
  simp only
  rw [rotate_tail_append iv.data src pos hpos]

lemma insert_input_ok (iv : IV) (pos : Nat) (src : List Int)
    (hpos : pos ≤ iv.data.length) (hcap : iv.data.length + src.length ≤ iv.cap) :
    insert_input iv pos src =
      (Except.ok pos, ⟨iv.cap, iv.data.take pos ++ src ++ iv.data.drop pos⟩) := by
  unfold insert_input
  rw [emplace_loop_ok src iv hcap]
  simp only
  rw [rotate_tail_append iv.data src pos hpos]

lemma inv_try_emplace_back (iv : IV) (v : Int) (h : Inv iv) :
    Inv (try_emplace_back iv v).2 := by
  unfold try_emplace_back unchecked_emplace_back
  by_cases hc : iv.data.length = iv.cap
  · rw [if_pos hc]
    exact h
  · rw [if_neg hc]
    simp only [Inv, List.length_append, List.length_cons, List.length_nil] at h ⊢
    omega

lemma inv_push_back (iv : IV) (v : Int) (h : Inv iv) : Inv (push_back iv v).2 := by
  have hb := inv_emplace_back iv v h
  unfold push_back
  rcases he : emplace_back iv v with ⟨res, iv2⟩
  rw [he] at hb
  cases res with
  | error e => exact hb
  | ok u => exact hb

lemma inv_append_range_sized (iv : IV) (rg : List Int) (h : Inv iv) :
    Inv (append_range_sized iv rg).2 := by
  unfold append_range_sized
  by_cases hc : iv.cap < iv.data.length + rg.length
  · rw [if_pos hc]
    exact h
  · rw [if_neg hc]
    exact inv_append_range_loop rg iv h

lemma inv_resize_val (iv : IV) (sz : Nat) (c : Int) (h : Inv iv) :
    Inv (resize_val iv sz c).2 := by
  unfold resize_val
  by_cases h1 : sz = iv.data.length
  · rw [if_pos h1]
    exact h
  · rw [if_neg h1]
    by_cases h2 : iv.cap < sz
    · rw [if_pos h2]
      exact h
    · rw [if_neg h2]
      by_cases h3 : iv.data.length < sz
      · rw [if_pos h3]
        have hin := inv_insert_n iv iv.data.length (sz - iv.data.length) c h
        rcases hi : insert_n iv iv.data.length (sz - iv.data.length) c with ⟨res, iv2⟩
        rw [hi] at hin
        cases res with
        | error e => exact hin
        | ok u => exact hin
      · rw [if_neg h3]
        simp only [Inv, List.length_take] at h ⊢
        omega

lemma inv_resize_def (iv : IV) (sz : Nat) (h : Inv iv) : Inv (resize_def iv sz).2 := by
  unfold resize_def
  by_cases h1 : sz = iv.data.length
  · rw [if_pos h1]
    exact h
  · rw [if_neg h1]
    by_cases h2 : iv.cap < sz
    · rw [if_pos h2]
      exact h
    · rw [if_neg h2]
      by_cases h3 : iv.data.length < sz
      · rw [if_pos h3]
        exact inv_emplace_loop _ iv h
      · rw [if_neg h3]
        simp only [Inv, List.length_take] at h ⊢
        omega

lemma inv_empty (N : Nat) : Inv ⟨N, []⟩ := by
  simp [Inv]

lemma inv_erase (iv : IV) (i j : Nat) (hij : i ≤ j) (hj : j ≤ iv.data.length)
    (h : Inv iv) : Inv (erase iv i j).2 := by
  unfold erase
  by_cases he : i = j
  · rw [if_pos he]
    exact h
  · rw [if_neg he]
    simp only [Inv, List.length_append, List.length_take, List.length_drop] at h ⊢
    omega

end Lemmas

/-- The states reachable from the public operations of the container,
including the states left behind by failing operations (the `.2` component
of each result).  `mv` ranges over all possible moved-from element states;
the `unchecked_`, `erase` and `pop_back` constructors carry the operations'
narrow-contract preconditions. -/
inductive Reach : IV → Prop where
  | of_default (N : Nat) : Reach ⟨N, []⟩
  | of_ctor_n (N n : Nat) : Reach (ctor_n N n).2
  | of_ctor_n_val (N n : Nat) (v : Int) : Reach (ctor_n_val N n v).2
  | of_ctor_list (N : Nat) (l : List Int) : Reach (ctor_list N l).2
  | of_copy_construct (x : IV) : Reach x → Reach (copy_construct x).2
  | of_move_construct_dst (mv : Int → Int) (x : IV) :
      Reach x → Reach (move_construct mv x).1.2
  | of_move_construct_src (mv : Int → Int) (x : IV) :
      Reach x → Reach (move_construct mv x).2
  | of_copy_assign (dst x : IV) : Reach dst → Reach x → Reach (copy_assign dst x).2
  | of_push_back (iv : IV) (v : Int) : Reach iv → Reach (push_back iv v).2
  | of_emplace_back (iv : IV) (v : Int) : Reach iv → Reach (emplace_back iv v).2
  | of_try_emplace_back (iv : IV) (v : Int) : Reach iv → Reach (try_emplace_back iv v).2
  | of_unchecked_emplace_back (iv : IV) (v : Int) : Reach iv →
      iv.data.length < iv.cap → Reach (unchecked_emplace_back iv v)
  | of_append_range (iv : IV) (rg : List Int) : Reach iv →
      Reach (append_range_sized iv rg).2
  | of_insert_input (iv : IV) (pos : Nat) (src : List Int) : Reach iv →
      Reach (insert_input iv pos src).2
  | of_insert_range_ra (iv : IV) (pos : Nat) (src : List Int) : Reach iv →
      Reach (insert_range_ra iv pos src).2
  | of_insert_n (iv : IV) (pos n : Nat) (x : Int) : Reach iv →
      Reach (insert_n iv pos n x).2
  | of_emplace_at (iv : IV) (pos : Nat) (v : Int) : Reach iv →
      Reach (emplace_at iv pos v).2
  | of_erase (iv : IV) (i j : Nat) : Reach iv → i ≤ j → j ≤ iv.data.length →
      Reach (erase iv i j).2
  | of_resize_val (iv : IV) (sz : Nat) (c : Int) : Reach iv →
      Reach (resize_val iv sz c).2
  | of_resize_def (iv : IV) (sz : Nat) : Reach iv → Reach (resize_def iv sz).2
  | of_assign (iv : IV) (l : List Int) : Reach iv → Reach (assign_list iv l).2
  | of_clear (iv : IV) : Reach iv → Reach (clear iv)
  | of_swap_fst (mv : Int → Int) (a b : IV) : Reach a → Reach b →
      Reach (swap_op mv a b).1
  | of_swap_snd (mv : Int → Int) (a b : IV) : Reach a → Reach b →
      Reach (swap_op mv a b).2
  | of_pop_back (iv : IV) : Reach iv → 0 < iv.data.length → Reach (pop_back iv)

section Claims

/-- C1: evaluation of the source's `operator<=>` at a failing input.  For
`x = {5}` and `y = {3}` (equal sizes, different sequences) the code returns
`0` (equal), while the lexicographic pairwise comparison the spec (and the
`synth-three-way-result` comment in the source) describe returns greater;
for `x = {2}` and `y = {1, 1}` the code returns `-1` because it compares
sizes first, while lexicographically `x` follows `y`. -/
theorem three_way_compare_not_lexicographic :
    three_way_compare ⟨1, [5]⟩ ⟨1, [3]⟩ = 0 ∧ specLexCompare [5] [3] = 1 ∧
    three_way_compare ⟨2, [2]⟩ ⟨3, [1, 1]⟩ = -1 ∧ specLexCompare [2] [1, 1] = 1 := by
  refine ⟨by decide, by decide, by decide, by decide⟩

/-- C2 counterexample: `insert(position, n, x)` performs no up-front
capacity check.  On `inplace_vector<int, 2>{10}`, `insert(begin(), 2, 7)`
appends one copy (reaching capacity), then fails `bad_alloc` on the second,
leaving the container mutated to `{10, 7}` — not all-or-nothing. -/
theorem insert_n_not_atomic_cex :
    insert_n ⟨2, [10]⟩ 0 2 7 = (Except.error Err.badAlloc, ⟨2, [10, 7]⟩) ∧
    (⟨2, [10, 7]⟩ : IV) ≠ ⟨2, [10]⟩ := by
  refine ⟨rfl, by decide⟩

/-- C2 (amended): the size-known bulk insertions that do check up front —
the iterator-range `insert` with a random-access source and `append_range`
with a sized range — fail with `bad_alloc` before constructing any element
and leave the container unchanged when the resulting size would exceed the
capacity.  (The n-copies overload `insert(position, n, x)` performs no such
check; see the counterexample.) -/
theorem bulk_sized_insert_atomic (iv : IV) (pos : Nat) (src : List Int)
    (h : iv.cap < iv.data.length + src.length) :
    insert_range_ra iv pos src = (Except.error Err.badAlloc, iv) ∧
    append_range_sized iv src = (Except.error Err.badAlloc, iv) := by
  unfold insert_range_ra append_range_sized
  rw [if_pos h, if_pos h]
  exact ⟨rfl, rfl⟩

/-- Witness for `bulk_sized_insert_atomic` at capacity 1, empty container,
source of two elements. -/
theorem bulk_sized_insert_atomic_witness :
    insert_range_ra ⟨1, ([] : List Int)⟩ 0 [1, 2] = (Except.error Err.badAlloc, ⟨1, []⟩) ∧
    append_range_sized ⟨1, ([] : List Int)⟩ [1, 2] = (Except.error Err.badAlloc, ⟨1, []⟩) :=
  bulk_sized_insert_atomic ⟨1, []⟩ 0 [1, 2] (by decide)

/-- C3: with `size() == capacity()`, `push_back` and `emplace_back` throw
`bad_alloc`, `try_push_back` and `try_emplace_back` return `nullptr`
(`none`), and in every case the container state is returned unchanged. -/
theorem push_back_at_capacity (iv : IV) (v : Int) (h : iv.data.length = iv.cap) :
    push_back iv v = (Except.error Err.badAlloc, iv) ∧
    emplace_back iv v = (Except.error Err.badAlloc, iv) ∧
    try_push_back iv v = (none, iv) ∧
    try_emplace_back iv v = (none, iv) := by
  have h1 : try_emplace_back iv v = (none, iv) := by
    unfold try_emplace_back
    rw [if_pos h]
  have h2 : emplace_back iv v = (Except.error Err.badAlloc, iv) :=
    emplace_back_full iv v h
  refine ⟨?_, h2, h1, h1⟩
  unfold push_back
  rw [h2]

/-- Witness for `push_back_at_capacity` on a full `inplace_vector<int, 1>`. -/
theorem push_back_at_capacity_witness :
    push_back ⟨1, [4]⟩ 9 = (Except.error Err.badAlloc, ⟨1, [4]⟩) ∧
    emplace_back ⟨1, [4]⟩ 9 = (Except.error Err.badAlloc, ⟨1, [4]⟩) ∧
    try_push_back ⟨1, [4]⟩ 9 = (none, ⟨1, [4]⟩) ∧
    try_emplace_back ⟨1, [4]⟩ 9 = (none, ⟨1, [4]⟩) :=
  push_back_at_capacity ⟨1, [4]⟩ 9 (by decide)

/-- C7: evaluation of `__smallest_size_t` (as a byte width) at the failing
input `N = 255`: the source's strict `<` against `numeric_limits<uint8_t>::max()`
selects the 2-byte type, although the 1-byte unsigned type can represent
255, contradicting both the spec and the source's own comment ("smallest
unsigned integer that can represent values in [0, N]"); likewise at
`N = 65535` the 4-byte type is selected instead of the 2-byte one. -/
theorem smallest_size_bytes_boundary :
    smallest_size_bytes 255 = 2 ∧ specSmallestBytes 255 = 1 ∧
    smallest_size_bytes 65535 = 4 ∧ specSmallestBytes 65535 = 2 ∧
    smallest_size_bytes 254 = 1 := by
  refine ⟨by decide, by decide, by decide, by decide, by decide⟩

/-- C10: with spare capacity, `try_emplace_back` (and `try_push_back`)
succeeds: it returns a non-null pointer addressing the element at index
`size()` (the old size), and the new state is the old element sequence with
the new value appended (size grows by exactly one, previous elements
unchanged). -/
theorem try_emplace_back_spare_succeeds (iv : IV) (v : Int)
    (h : iv.data.length < iv.cap) :
    try_emplace_back iv v = (some iv.data.length, ⟨iv.cap, iv.data ++ [v]⟩) ∧
    try_push_back iv v = (some iv.data.length, ⟨iv.cap, iv.data ++ [v]⟩) := by
  have hne : iv.data.length ≠ iv.cap := Nat.ne_of_lt h
  have h1 : try_emplace_back iv v = (some iv.data.length, ⟨iv.cap, iv.data ++ [v]⟩) := by
    unfold try_emplace_back unchecked_emplace_back
    rw [if_neg hne]
    simp
  exact ⟨h1, h1⟩

/-- Witness for `try_emplace_back_spare_succeeds` on `inplace_vector<int, 3>`
holding `{4, 5}`: the returned index is 2 (the old size). -/
theorem try_emplace_back_spare_succeeds_witness :
    try_emplace_back ⟨3, [4, 5]⟩ 9 = (some 2, ⟨3, [4, 5, 9]⟩) ∧
    try_push_back ⟨3, [4, 5]⟩ 9 = (some 2, ⟨3, [4, 5, 9]⟩) :=
  try_emplace_back_spare_succeeds ⟨3, [4, 5]⟩ 9 (by decide)

/-- C4: on a container holding `0..N-1` with capacity at least `N + 2`,
inserting `{A, B}` at position `k ≤ N` (the random-access iterator-range
insert, which the initializer-list overload funnels into) succeeds,
returning the position `k` and the sequence whose first `k` elements are
the original prefix, followed by `A, B`, followed by the original
`[k, N)`; the new size is `N + 2`. -/
theorem insert_two_roundtrip (N k cap : Nat) (A B : Int) (l : List Int)
    (hl : l = (List.range N).map (fun i => Int.ofNat i))
    (hk : k ≤ N) (hcap : N + 2 ≤ cap) :
    insert_range_ra ⟨cap, l⟩ k [A, B] =
      (Except.ok k, ⟨cap, l.take k ++ [A, B] ++ l.drop k⟩) ∧
    (insert_range_ra ⟨cap, l⟩ k [A, B]).2.data.length = N + 2 := by
  have hlen : l.length = N := by
    rw [hl, List.length_map, List.length_range]
  have h1 := insert_range_ra_ok ⟨cap, l⟩ k [A, B] (by simpa [hlen] using hk)
    (by simp only [hlen, List.length_cons, List.length_nil]; omega)
  refine ⟨h1, ?_⟩
  rw [h1]
  simp only [List.length_append, List.length_take, List.length_cons,
    List.length_nil, List.length_drop, hlen]
  omega

/-- Witness for `insert_two_roundtrip`: `N = 3`, `k = 1`, capacity 5,
inserting `{7, 8}` into `{0, 1, 2}` yields `{0, 7, 8, 1, 2}`. -/
theorem insert_two_roundtrip_witness :
    insert_range_ra ⟨5, [0, 1, 2]⟩ 1 [7, 8] =
      (Except.ok 1, ⟨5, [0, 7, 8, 1, 2]⟩) ∧
    (insert_range_ra ⟨5, [0, 1, 2]⟩ 1 [7, 8]).2.data.length = 3 + 2 :=
  insert_two_roundtrip 3 1 5 7 8 [0, 1, 2] (by decide) (by decide) (by decide)

/-- C5: `resize` case analysis on a container satisfying the size
invariant: a no-op when `sz` equals the size; `bad_alloc` with the
container unchanged when `sz` exceeds the capacity; appending exactly
`sz - size()` copies of the value (resp. value-initialized `0`s) when
growing within capacity; destroying exactly the trailing elements, keeping
the first `sz`, when shrinking. -/
theorem resize_spec (iv : IV) (sz : Nat) (c : Int) (hinv : Inv iv) :
    (sz = iv.data.length →
      resize_val iv sz c = (Except.ok (), iv) ∧
      resize_def iv sz = (Except.ok (), iv)) ∧
    (iv.cap < sz →
      resize_val iv sz c = (Except.error Err.badAlloc, iv) ∧
      resize_def iv sz = (Except.error Err.badAlloc, iv)) ∧
    (iv.data.length < sz → sz ≤ iv.cap →
      resize_val iv sz c =
        (Except.ok (), ⟨iv.cap, iv.data ++ List.replicate (sz - iv.data.length) c⟩) ∧
      resize_def iv sz =
        (Except.ok (), ⟨iv.cap, iv.data ++ List.replicate (sz - iv.data.length) 0⟩)) ∧
    (sz < iv.data.length →
      resize_val iv sz c = (Except.ok (), ⟨iv.cap, iv.data.take sz⟩) ∧
      resize_def iv sz = (Except.ok (), ⟨iv.cap, iv.data.take sz⟩)) := by
  simp only [Inv] at hinv
  refine ⟨?_, ?_, ?_, ?_⟩
  · intro h
    constructor
    · unfold resize_val
      rw [if_pos h]
    · unfold resize_def
      rw [if_pos h]
  · intro h
    have hne : sz ≠ iv.data.length := by omega
    constructor
    · unfold resize_val
      rw [if_neg hne, if_pos h]
    · unfold resize_def
      rw [if_neg hne, if_pos h]
  · intro hlt hle
    have hne : sz ≠ iv.data.length := by omega
    have hnc : ¬ iv.cap < sz := by omega
    constructor
    · unfold resize_val
      rw [if_neg hne, if_neg hnc, if_pos hlt]
      rw [insert_n_eq_insert_input,
        insert_input_ok iv iv.data.length (List.replicate (sz - iv.data.length) c)
          (le_refl _) (by simp only [List.length_replicate]; omega)]
      simp
    · unfold resize_def
      rw [if_neg hne, if_neg hnc, if_pos hlt]
      rw [emplace_loop_ok _ iv (by simp only [List.length_replicate]; omega)]
  · intro hgt
    have hne : sz ≠ iv.data.length := by omega
    have hnc : ¬ iv.cap < sz := by omega
    have hnl : ¬ iv.data.length < sz := by omega
    constructor
    · unfold resize_val
      rw [if_neg hne, if_neg hnc, if_neg hnl]
    · unfold resize_def
      rw [if_neg hne, if_neg hnc, if_neg hnl]

/-- Witness for `resize_spec` on `inplace_vector<int, 5>{1, 2, 3}`:
the four cases at `sz = 3`, `sz = 9`, `sz = 4`, `sz = 1`. -/
theorem resize_spec_witness :
    (resize_val ⟨5, [1, 2, 3]⟩ 3 7 = (Except.ok (), ⟨5, [1, 2, 3]⟩) ∧
      resize_def ⟨5, [1, 2, 3]⟩ 3 = (Except.ok (), ⟨5, [1, 2, 3]⟩)) ∧
    (resize_val ⟨5, [1, 2, 3]⟩ 9 7 = (Except.error Err.badAlloc, ⟨5, [1, 2, 3]⟩) ∧
      resize_def ⟨5, [1, 2, 3]⟩ 9 = (Except.error Err.badAlloc, ⟨5, [1, 2, 3]⟩)) ∧
    (resize_val ⟨5, [1, 2, 3]⟩ 4 7 = (Except.ok (), ⟨5, [1, 2, 3, 7]⟩) ∧
      resize_def ⟨5, [1, 2, 3]⟩ 4 = (Except.ok (), ⟨5, [1, 2, 3, 0]⟩)) ∧
    (resize_val ⟨5, [1, 2, 3]⟩ 1 7 = (Except.ok (), ⟨5, [1]⟩) ∧
      resize_def ⟨5, [1, 2, 3]⟩ 1 = (Except.ok (), ⟨5, [1]⟩)) :=
  ⟨(resize_spec ⟨5, [1, 2, 3]⟩ 3 7 (by simp [Inv])).1 (by decide),
   (resize_spec ⟨5, [1, 2, 3]⟩ 9 7 (by simp [Inv])).2.1 (by decide),
   (resize_spec ⟨5, [1, 2, 3]⟩ 4 7 (by simp [Inv])).2.2.1 (by decide) (by decide),
   (resize_spec ⟨5, [1, 2, 3]⟩ 1 7 (by simp [Inv])).2.2.2 (by decide)⟩

/-- C6: `erase(first, last)` at index positions `i ≤ j ≤ size()`: the
result is the original prefix `[0, i)` followed by the surviving suffix
`[j, size)` in order; the size shrinks by the erased span length `j - i`;
the elements before `i` are untouched; the returned iterator is `i`. -/
theorem erase_spec (iv : IV) (i j : Nat) (hij : i ≤ j) (hj : j ≤ iv.data.length) :
    (erase iv i j).1 = i ∧
    (erase iv i j).2.data = iv.data.take i ++ iv.data.drop j ∧
    (erase iv i j).2.data.length = iv.data.length - (j - i) ∧
    (erase iv i j).2.data.take i = iv.data.take i := by
  unfold erase
  by_cases h : i = j
  · subst h
    rw [if_pos rfl]
    refine ⟨rfl, (List.take_append_drop i iv.data).symm, ?_, rfl⟩
    show iv.data.length = iv.data.length - (i - i)
    omega
  · rw [if_neg h]
    have hi : i ≤ iv.data.length := le_trans hij hj
    have hti : (iv.data.take i).length = i := by
      simp only [List.length_take]
      omega
    refine ⟨rfl, rfl, ?_, ?_⟩
    · simp only [List.length_append, List.length_take, List.length_drop]
      omega
    · rw [List.take_append_of_le_length (by omega)]
      rw [List.take_take]
      simp

/-- Witness for `erase_spec`: erasing `[1, 3)` from
`inplace_vector<int, 5>{0, 1, 2, 3, 4}` yields `{0, 3, 4}`. -/
theorem erase_spec_witness :
    (erase ⟨5, [0, 1, 2, 3, 4]⟩ 1 3).1 = 1 ∧
    (erase ⟨5, [0, 1, 2, 3, 4]⟩ 1 3).2.data = [0] ++ [3, 4] ∧
    (erase ⟨5, [0, 1, 2, 3, 4]⟩ 1 3).2.data.length = 5 - (3 - 1) ∧
    (erase ⟨5, [0, 1, 2, 3, 4]⟩ 1 3).2.data.take 1 = [0] :=
  erase_spec ⟨5, [0, 1, 2, 3, 4]⟩ 1 3 (by decide) (by decide)

/-- C8: the move constructor is element-wise: whatever moved-from state
`mv` leaves the source's elements in, the source container's count is
unchanged by the move construction; and on an invariant-satisfying source
the new container receives exactly the source's element values. -/
theorem move_construct_preserves_source_size (mv : Int → Int) (x : IV) :
    (move_construct mv x).2.data.length = x.data.length ∧
    (Inv x → (move_construct mv x).1 = (Except.ok (), ⟨x.cap, x.data⟩)) := by
  constructor
  · simp [move_construct]
  · intro h
    unfold move_construct
    simp only
    have he := emplace_loop_ok x.data ⟨x.cap, []⟩ (by simpa [Inv] using h)
    simpa using he

/-- Witness for `move_construct_preserves_source_size` on
`inplace_vector<int, 2>{5}` with moved-from elements set to `-1`. -/
theorem move_construct_preserves_source_size_witness :
    (move_construct (fun _ => -1) ⟨2, [5]⟩).2.data.length = 1 ∧
    (move_construct (fun _ => -1) ⟨2, [5]⟩).1 = (Except.ok (), ⟨2, [5]⟩) := by
  have h := move_construct_preserves_source_size (fun _ => -1) ⟨2, [5]⟩
  exact ⟨h.1, h.2 (by simp [Inv])⟩

/-- C9: on every state reachable through the public operations —
construction in all forms, the three push/emplace tiers, insert, erase,
resize, assign, clear, swap and pop_back, including the states left behind
by failed operations — the invariant `0 ≤ size() ≤ N` holds. -/
theorem reach_size_le_capacity (iv : IV) (h : Reach iv) :
    0 ≤ size iv ∧ size iv ≤ capacity iv := by
  refine ⟨Nat.zero_le _, ?_⟩
  show Inv iv
  induction h with
  | of_default N => exact inv_empty N
  | of_ctor_n N n => exact inv_emplace_loop _ _ (inv_empty N)
  | of_ctor_n_val N n v => exact inv_insert_n _ _ _ _ (inv_empty N)
  | of_ctor_list N l => exact inv_insert_range_ra _ _ _ (inv_empty N)
  | of_copy_construct x _ _ => exact inv_emplace_loop _ _ (inv_empty x.cap)
  | of_move_construct_dst mv x _ _ => exact inv_emplace_loop _ _ (inv_empty x.cap)
  | of_move_construct_src mv x _ ih =>
    simp only [Inv, move_construct, List.length_map] at ih ⊢
    exact ih
  | of_copy_assign dst x _ _ _ _ => exact inv_emplace_loop _ _ (inv_empty dst.cap)
  | of_push_back iv v _ ih => exact inv_push_back iv v ih
  | of_emplace_back iv v _ ih => exact inv_emplace_back iv v ih
  | of_try_emplace_back iv v _ ih => exact inv_try_emplace_back iv v ih
  | of_unchecked_emplace_back iv v _ hlt _ =>
    simp only [Inv, unchecked_emplace_back, List.length_append, List.length_cons,
      List.length_nil]
    omega
  | of_append_range iv rg _ ih => exact inv_append_range_sized iv rg ih
  | of_insert_input iv pos src _ ih => exact inv_insert_input iv pos src ih
  | of_insert_range_ra iv pos src _ ih => exact inv_insert_range_ra iv pos src ih
  | of_insert_n iv pos n x _ ih => exact inv_insert_n iv pos n x ih
  | of_emplace_at iv pos v _ ih => exact inv_insert_input iv pos [v] ih
  | of_erase iv i j _ hij hj ih => exact inv_erase iv i j hij hj ih
  | of_resize_val iv sz c _ ih => exact inv_resize_val iv sz c ih
  | of_resize_def iv sz _ ih => exact inv_resize_def iv sz ih
  | of_assign iv l _ _ => exact inv_insert_input _ _ _ (inv_empty iv.cap)
  | of_clear iv _ _ => exact inv_empty iv.cap
  | of_swap_fst mv a b _ _ _ _ => exact inv_emplace_loop _ _ (inv_empty a.cap)
  | of_swap_snd mv a b _ _ _ _ => exact inv_emplace_loop _ _ (inv_empty b.cap)
  | of_pop_back iv _ _ ih =>
    simp only [Inv, pop_back, List.length_dropLast] at ih ⊢
    omega

/-- Witness for `reach_size_le_capacity`: the default-constructed
`inplace_vector<int, 2>` is reachable and satisfies the invariant. -/
theorem reach_size_le_capacity_witness :
    0 ≤ size ⟨2, ([] : List Int)⟩ ∧ size ⟨2, ([] : List Int)⟩ ≤ capacity ⟨2, []⟩ :=
  reach_size_le_capacity ⟨2, []⟩ (Reach.of_default 2)

end Claims

end BemanIV
